import Mathlib

/-!
# go-proxy-middleware: the stale-while-revalidate cache

A shallow embedding of `cache.go` and of `invalidateHandler` in `main.go`.

Modelling conventions.

* A point in time is a number of nanoseconds (`Time`), a `time.Duration` a number of
  nanoseconds (`Duration`).  One call of `withCache` or `revalidate` happens at one
  instant `now`: every `time.Now()` of that call reads `now`.
* `http.Header` (a `map[string][]string`) is an association list from canonical header
  names to their values; a name that is absent has the empty list of values.
* The process-wide `sync.Map` named `cache` is only ever used through `Load`, `Store`
  and `Delete`, so it is a function from keys to optional entries, passed explicitly.
* A backend `http.HandlerFunc` is the sequence of calls it makes on the
  `http.ResponseWriter` it is given, as a function of the request; it does not touch
  the cache.
* `go revalidate(cacheKey, r, next)` is recorded in the outcome of the request as a
  spawned task; `revalidate` itself is a function of the store found when it runs.
* `log.Printf` calls are left out.
-/

namespace ProxyCache

/-! ## Time -/

/-- Instants, in nanoseconds. -/
abbrev Time := Nat

/-- The type `time.Duration`: nanoseconds. -/
abbrev Duration := Nat

/-- The constant `time.Minute`. -/
def minute : Duration := 60 * 1000000000

/-- The variable `cacheTTL = 10 * time.Minute`. -/
def cacheTTL : Duration := 10 * minute

/-- The variable `revalidateTTL = 5 * time.Minute`. -/
def revalidateTTL : Duration := 5 * minute

/-! ## Headers -/

/-- Byte slices, one number per byte. -/
abbrev Bytes := List Nat

/-- The type `http.Header`: header name to ordered values.  Names are in canonical
form, on which the canonicalisation done by `Set`, `Add`, `Del` and `Values` is the
identity; a Go map holds a name once. -/
abbrev Header := List (String × List String)

/-- `h.Values(k)`: the values stored under `k`, none when `k` is absent. -/
def Header.Values : Header → String → List String
  | [], _ => []
  | (k', vs) :: h, k => if k' = k then vs else Header.Values h k

/-- `h.Del(k)`: remove the name `k`. -/
def Header.Del : Header → String → Header
  | [], _ => []
  | (k', vs) :: h, k => if k' = k then Header.Del h k else (k', vs) :: Header.Del h k

/-- `h.Set(k, v)`: the values of `k` become the single value `v`. -/
def Header.Set (h : Header) (k v : String) : Header :=
  (k, [v]) :: Header.Del h k

/-- `h.Add(k, v)`: append `v` to the values of `k`. -/
def Header.Add (h : Header) (k v : String) : Header :=
  (k, Header.Values h k ++ [v]) :: Header.Del h k

/-! ## The response writer of the server -/

/-- The `http.ResponseWriter` that the server hands to a handler: the header map
returned by `Header()`, the status line once it is sent together with the headers
that went out with it, and the body bytes sent so far. -/
structure ResponseWriter where
  header : Header
  status : Option Int
  sent : Header
  body : Bytes
  deriving DecidableEq

/-- The writer of a new request: nothing set, nothing sent. -/
def ResponseWriter.fresh : ResponseWriter :=
  { header := [], status := none, sent := [], body := [] }

/-- `w.WriteHeader(code)`: the first call sends the status with the current headers;
a later call is superfluous and ignored. -/
def ResponseWriter.WriteHeader (w : ResponseWriter) (code : Int) : ResponseWriter :=
  match w.status with
  | some _ => w
  | none => { w with status := some code, sent := w.header }

/-- `w.Write(b)`: sends status 200 first when no status went out yet, then the
bytes. -/
def ResponseWriter.Write (w : ResponseWriter) (b : Bytes) : ResponseWriter :=
  let w1 := w.WriteHeader 200
  { w1 with body := w1.body ++ b }

/-- What the server does when the handler returns: a response whose status was
never written goes out with status 200. -/
def ResponseWriter.finish (w : ResponseWriter) : ResponseWriter :=
  w.WriteHeader 200

/-! ## The recorder -/

/-- The value of the embedded `http.ResponseWriter` of a recorder: the writer of
the server, or `&noopResponseWriter{}`. -/
inductive Sink where
  | client (w : ResponseWriter)
  | noop
  deriving DecidableEq

/-- A header map held by reference: a map of its own, or the very map that the
embedded writer of the server returns from `Header()`. -/
inductive HeaderRef where
  | own (h : Header)
  | ofClient
  deriving DecidableEq

/-- `Header()` of the embedded writer.  The server returns its header map;
`noopResponseWriter.Header` returns `make(http.Header)`, a new empty map on every
call. -/
def Sink.Header : Sink → HeaderRef
  | .client _ => .ofClient
  | .noop => .own []

/-- A mutation `f` applied to the map returned by `Header()`.  On the writer of the
server the map is the response's; on the noop writer it is a new map nobody keeps,
so nothing changes. -/
def Sink.modifyHeader (f : ProxyCache.Header → ProxyCache.Header) : Sink → Sink
  | .client w => .client { w with header := f w.header }
  | .noop => .noop

/-- `WriteHeader` of the embedded writer; `noopResponseWriter.WriteHeader` does
nothing. -/
def Sink.WriteHeader : Sink → Int → Sink
  | .client w, code => .client (w.WriteHeader code)
  | .noop, _ => .noop

/-- `Write` of the embedded writer; `noopResponseWriter.Write` does nothing. -/
def Sink.Write : Sink → Bytes → Sink
  | .client w, b => .client (w.Write b)
  | .noop, _ => .noop

/-- The writer of the server behind a sink; `w` for the noop writer. -/
def Sink.clientOr : Sink → ResponseWriter → ResponseWriter
  | .client c, _ => c
  | .noop, w => w

/-- The struct `recordingResponseWriter`. -/
structure recordingResponseWriter where
  ResponseWriter : Sink
  Body : Bytes
  Headers : HeaderRef
  Code : Int
  deriving DecidableEq

/-- `recordingResponseWriter.Write`: `w.Body = b`, then the embedded `Write`. -/
def recordingResponseWriter.Write (w : recordingResponseWriter) (b : Bytes) :
    recordingResponseWriter :=
  { w with Body := b, ResponseWriter := w.ResponseWriter.Write b }

/-- `recordingResponseWriter.WriteHeader`: `w.Code = statusCode`, the embedded
`WriteHeader`, then `w.Headers = w.ResponseWriter.Header()`. -/
def recordingResponseWriter.WriteHeader (w : recordingResponseWriter) (statusCode : Int) :
    recordingResponseWriter :=
  let inner := w.ResponseWriter.WriteHeader statusCode
  { w with Code := statusCode, ResponseWriter := inner, Headers := inner.Header }

/-- The header map that the field `Headers` of a recorder points to. -/
def recordingResponseWriter.recorded (w : recordingResponseWriter) : Header :=
  match w.Headers, w.ResponseWriter with
  | .own h, _ => h
  | .ofClient, .client c => c.header
  | .ofClient, .noop => []

/-! ## Backends -/

/-- The request, as far as the cache looks at it: `r.Method` and `r.URL.Path`. -/
structure Request where
  Method : String
  Path : String
  deriving DecidableEq

/-- One call of a handler on its `http.ResponseWriter`. -/
inductive Op where
  | headerSet (k v : String)
  | headerAdd (k v : String)
  | headerDel (k : String)
  | writeHeader (code : Int)
  | write (b : Bytes)
  deriving DecidableEq

/-- The type `http.HandlerFunc` of a backend: the calls it makes for a request. -/
abbrev HandlerFunc := Request → List Op

/-- One call of the handler, made on a recorder.  `Header()` is promoted from the
embedded writer; `Write` and `WriteHeader` are the recorder's own. -/
def recordingResponseWriter.step (w : recordingResponseWriter) : Op → recordingResponseWriter
  | .headerSet k v =>
      { w with ResponseWriter := w.ResponseWriter.modifyHeader (fun h => Header.Set h k v) }
  | .headerAdd k v =>
      { w with ResponseWriter := w.ResponseWriter.modifyHeader (fun h => Header.Add h k v) }
  | .headerDel k =>
      { w with ResponseWriter := w.ResponseWriter.modifyHeader (fun h => Header.Del h k) }
  | .writeHeader code => w.WriteHeader code
  | .write b => w.Write b

/-- The call `next(response, r)`: all calls of the handler, in order. -/
def recordingResponseWriter.serve (w : recordingResponseWriter) (ops : List Op) :
    recordingResponseWriter :=
  ops.foldl recordingResponseWriter.step w

/-! ## The cache -/

/-- The struct `CacheEntry`. -/
structure CacheEntry where
  Body : Bytes
  Headers : Header
  ExpiresAt : Time
  RevalidateAt : Time
  deriving DecidableEq

/-- The `sync.Map` named `cache`, from cache key to entry. -/
abbrev SyncMap := String → Option CacheEntry

/-- The empty `sync.Map`. -/
def SyncMap.empty : SyncMap := fun _ => none

/-- `cache.Load(key)`. -/
def SyncMap.Load (c : SyncMap) (key : String) : Option CacheEntry := c key

/-- `cache.Store(key, entry)`. -/
def SyncMap.Store (c : SyncMap) (key : String) (entry : CacheEntry) : SyncMap :=
  fun k => if k = key then some entry else c k

/-- `cache.Delete(key)`. -/
def SyncMap.Delete (c : SyncMap) (key : String) : SyncMap :=
  fun k => if k = key then none else c k

/-- The recorder of `revalidate`,
`&recordingResponseWriter{ResponseWriter: &noopResponseWriter{}}`: the other fields
have their zero values. -/
def discardRecorder : recordingResponseWriter :=
  { ResponseWriter := .noop, Body := [], Headers := .own [], Code := 0 }

/-- The recorder of the miss path,
`&recordingResponseWriter{ResponseWriter: w, Headers: make(http.Header)}`. -/
def liveRecorder (w : ResponseWriter) : recordingResponseWriter :=
  { ResponseWriter := .client w, Body := [], Headers := .own [], Code := 0 }

/-- `revalidate(cacheKey, r, next)` run at time `now` on the store `cache`: the
store it leaves, and the number of calls of `next` it made.  The clone `r2` of the
request equals `r`. -/
def revalidate (cacheKey : String) (r : Request) (next : HandlerFunc) (now : Time)
    (cache : SyncMap) : SyncMap × Nat :=
  let r2 := r
  let response := discardRecorder.serve (next r2)
  if response.Code = 200 then
    let cacheEntry : CacheEntry :=
      { Body := response.Body
        Headers := response.recorded
        ExpiresAt := now + cacheTTL
        RevalidateAt := now + revalidateTTL }
    (cache.Store cacheKey cacheEntry, 1)
  else
    match cache.Load cacheKey with
    | some cacheEntry =>
        (cache.Store cacheKey { cacheEntry with RevalidateAt := now + revalidateTTL * 2 }, 1)
    | none => (cache, 1)

/-- What one request through `withCache` leaves behind: the writer of the client,
the store, how often `next` was called by the request itself, the keys given to
`cache.Delete`, and the `go revalidate(cacheKey, r, next)` tasks it started. -/
structure Outcome where
  w : ResponseWriter
  cache : SyncMap
  backendCalls : Nat
  deleted : List String
  spawned : List (String × Request)

/-- The header copy loop of the hit and stale branches:
`for key, values := range cacheEntry.Headers { for _, value := range values {
w.Header().Set(key, value) } }`.  The names are visited in the order of the list; on
a map, whose names are distinct, the order of the visit does not change the result. -/
def copyHeaders (w : ResponseWriter) (headers : Header) : ResponseWriter :=
  headers.foldl
    (fun w kv => kv.2.foldl (fun w value => { w with header := Header.Set w.header kv.1 value }) w)
    w

/-- The tail of `withCache` from the comment `// Miss` on, reached when no entry
was loaded or when the loaded entry was deleted; `deleted` lists the keys deleted
on the way. -/
def withCacheMiss (next : HandlerFunc) (w : ResponseWriter) (r : Request) (now : Time)
    (cache : SyncMap) (deleted : List String) : Outcome :=
  let cacheKey := r.Path
  let w := { w with header := Header.Set w.header "X-Cache" "MISS" }
  let response := (liveRecorder w).serve (next r)
  let w := response.ResponseWriter.clientOr w
  if response.Code = 200 then
    let cacheEntry : CacheEntry :=
      { Body := response.Body
        Headers := response.recorded
        ExpiresAt := now + cacheTTL
        RevalidateAt := now + revalidateTTL }
    { w := w, cache := cache.Store cacheKey cacheEntry, backendCalls := 1,
      deleted := deleted, spawned := [] }
  else
    { w := w, cache := cache, backendCalls := 1, deleted := deleted, spawned := [] }

/-- The handler returned by `withCache(next)`, called with the writer `w` and the
request `r` at time `now` on the store `cache`.  `ExpiresAt.After(now)` is
`now < ExpiresAt` and `RevalidateAt.Before(now)` is `RevalidateAt < now`. -/
def withCache (next : HandlerFunc) (w : ResponseWriter) (r : Request) (now : Time)
    (cache : SyncMap) : Outcome :=
  let cacheKey := r.Path
  match cache.Load cacheKey with
  | some cacheEntry =>
      if now < cacheEntry.ExpiresAt then
        let w := copyHeaders w cacheEntry.Headers
        let w := { w with header := Header.Set w.header "X-Cache" "HIT" }
        let w := w.Write cacheEntry.Body
        { w := w, cache := cache, backendCalls := 0, deleted := [], spawned := [] }
      else if cacheEntry.RevalidateAt < now then
        let w := copyHeaders w cacheEntry.Headers
        let w := { w with header := Header.Set w.header "X-Cache" "STALE" }
        let w := w.Write cacheEntry.Body
        { w := w, cache := cache, backendCalls := 0, deleted := [],
          spawned := [(cacheKey, r)] }
      else
        withCacheMiss next w r now (cache.Delete cacheKey) [cacheKey]
  | none => withCacheMiss next w r now cache []

/-- The response as the client receives it: the writer once the server has
finished the request. -/
def Outcome.response (o : Outcome) : ResponseWriter := o.w.finish

/-- The values of the `X-Cache` header of the response. -/
def Outcome.xCache (o : Outcome) : List String :=
  Header.Values o.response.sent "X-Cache"


/-! ## The handlers of `main.go` -/

/-- The bytes of an ASCII string literal, `[]byte("...")`. -/
def bytesOf (s : String) : Bytes := s.toList.map Char.toNat

/-- The result of `json.Marshal(settings)` in `settingsHandler`. -/
def settingsJSON : Bytes :=
  bytesOf ("\x7b\"game\":\x7b\"name\":\"Blackjack\",\"slug\":\"blackjack\"," ++
    "\"description\":\"The classic casino game\"\x7d,\"betrates\":[1,2,3,4,5]\x7d")

/-- The handler `settingsHandler`; marshalling the fixed settings does not fail. -/
def settingsHandler : HandlerFunc := fun _ =>
  [.headerSet "Content-Type" "application/json", .writeHeader 200, .write settingsJSON]

/-- The struct `InvalidateRequest`. -/
structure InvalidateRequest where
  Route : String
  deriving DecidableEq

/-- The handler `invalidateHandler`, called with the writer `w` on the store `cache`;
`decoded` is the result of `json.NewDecoder(r.Body).Decode(&request)`: the decoded
request, or the error. -/
def invalidateHandler (w : ResponseWriter) (decoded : Except String InvalidateRequest)
    (cache : SyncMap) : ResponseWriter × SyncMap :=
  let w := { w with header := Header.Set w.header "Content-Type" "application/json" }
  match decoded with
  | .error _ =>
      let w := w.WriteHeader 400
      (w.Write (bytesOf "\x7b\"error\": \"Invalid request\"\x7d"), cache)
  | .ok request =>
      let cache := cache.Delete request.Route
      let w := w.WriteHeader 200
      (w.Write (bytesOf "\x7b\"message\": \"Cache invalidated\"\x7d"), cache)

/-! ## Which header names a call writes -/

/-- Whether a call of the handler leaves the header name `k` alone. -/
def Op.leaves (k : String) : Op → Bool
  | .headerSet k' _ => decide (k' ≠ k)
  | .headerAdd k' _ => decide (k' ≠ k)
  | .headerDel k' => decide (k' ≠ k)
  | .writeHeader _ => true
  | .write _ => true

/-- Whether a call of the handler is a call on the header map. -/
def Op.onHeader : Op → Bool
  | .headerSet _ _ => true
  | .headerAdd _ _ => true
  | .headerDel _ => true
  | .writeHeader _ => false
  | .write _ => false

/-! ## An invariant of the live recorder -/

/-- The state of a live recorder in which the header name `k` has the values `vs`
in the header map of the client, and in the headers already sent, if any. -/
def Keeps (k : String) (vs : List String) (w : recordingResponseWriter) : Prop :=
  ∃ c, w.ResponseWriter = .client c ∧ Header.Values c.header k = vs ∧
    (c.status ≠ none → Header.Values c.sent k = vs)

/-! ## Concrete requests, backends and stores -/

/-- A request of the route `GET /{game}/settings`. -/
def settingsRequest : Request := { Method := "GET", Path := "/blackjack/settings" }

/-- The store after one request for the settings at time 0 on the empty store. -/
def warmStore : SyncMap :=
  (withCache settingsHandler ResponseWriter.fresh settingsRequest 0 SyncMap.empty).cache

/-- The entry that `warmStore` holds for the settings path. -/
def warmEntry : CacheEntry :=
  { Body := settingsJSON
    Headers := [("Content-Type", ["application/json"]), ("X-Cache", ["MISS"])]
    ExpiresAt := cacheTTL
    RevalidateAt := revalidateTTL }

/-- A backend that answers 500 without a body. -/
def failingBackend : HandlerFunc := fun _ => [.writeHeader 500]

/-- A backend that sets two cookies with `Header().Add`, then answers 200. -/
def cookieBackend : HandlerFunc := fun _ =>
  [.headerAdd "Set-Cookie" "a=1", .headerAdd "Set-Cookie" "b=2", .writeHeader 200,
   .write [111, 107]]

/-- A backend that answers 200 and writes its body in two calls of `Write`. -/
def chunkedBackend : HandlerFunc := fun _ =>
  [.writeHeader 200, .write [97, 98], .write [99, 100]]

/-- The store after a revalidation of the cached settings that got a 500, eleven
minutes in. -/
def backedOffStore : SyncMap :=
  (revalidate settingsRequest.Path settingsRequest failingBackend (11 * minute) warmStore).1

/-- The entry that `backedOffStore` holds for the settings path: expired at ten
minutes, to be revalidated at twenty-one. -/
def backedOffEntry : CacheEntry :=
  { Body := settingsJSON
    Headers := [("Content-Type", ["application/json"]), ("X-Cache", ["MISS"])]
    ExpiresAt := cacheTTL
    RevalidateAt := 11 * minute + revalidateTTL * 2 }

/-! ## Lemmas on header maps -/

theorem Header.Values_Del_self (h : Header) (k : String) :
    Header.Values (Header.Del h k) k = [] := by
  induction h with
  | nil => rfl
  | cons kv h ih =>
    obtain ⟨k', vs⟩ := kv
    by_cases hk : k' = k <;> simp [Header.Del, Header.Values, hk, ih]

theorem Header.Values_Del_ne (h : Header) {k k' : String} (hne : k ≠ k') :
    Header.Values (Header.Del h k) k' = Header.Values h k' := by
  induction h with
  | nil => rfl
  | cons kv h ih =>
    obtain ⟨k0, vs⟩ := kv
    by_cases hk : k0 = k
    · subst hk
      simp [Header.Del, Header.Values, hne, ih]
    · by_cases hk' : k0 = k'
      · subst hk'
        simp [Header.Del, Header.Values, hk]
      · simp [Header.Del, Header.Values, hk, hk', ih]

theorem Header.Values_Set_self (h : Header) (k v : String) :
    Header.Values (Header.Set h k v) k = [v] := by
  simp [Header.Set, Header.Values]

theorem Header.Values_Set_ne (h : Header) {k k' : String} (v : String) (hne : k ≠ k') :
    Header.Values (Header.Set h k v) k' = Header.Values h k' := by
  simp [Header.Set, Header.Values, hne, Header.Values_Del_ne]

theorem Header.Values_Add_ne (h : Header) {k k' : String} (v : String) (hne : k ≠ k') :
    Header.Values (Header.Add h k v) k' = Header.Values h k' := by
  simp [Header.Add, Header.Values, hne, Header.Values_Del_ne]

/-! ## Lemmas on the header copy loop -/

theorem copyValues_eq (k : String) (vs : List String) (w : ResponseWriter) :
    ∃ h, vs.foldl (fun w value => { w with header := Header.Set w.header k value }) w
      = { w with header := h } := by
  induction vs generalizing w with
  | nil => exact ⟨w.header, rfl⟩
  | cons v vs ih =>
    obtain ⟨h, hh⟩ := ih { w with header := Header.Set w.header k v }
    exact ⟨h, by simpa using hh⟩

/-- The copy loop changes the header map of the writer and nothing else. -/
theorem copyHeaders_eq (headers : Header) (w : ResponseWriter) :
    ∃ h, copyHeaders w headers = { w with header := h } := by
  induction headers generalizing w with
  | nil => exact ⟨w.header, rfl⟩
  | cons kv hs ih =>
    obtain ⟨h1, hh1⟩ := copyValues_eq kv.1 kv.2 w
    obtain ⟨h2, hh2⟩ := ih { w with header := h1 }
    refine ⟨h2, ?_⟩
    simp only [copyHeaders, List.foldl_cons] at hh2 ⊢
    rw [hh1, hh2]

/-- What the client receives from the hit and stale branches: after the copy loop,
`w.Header().Set("X-Cache", tag)` and `w.Write(body)` on a fresh writer. -/
theorem served_from_cache (headers : Header) (tag : String) (body : Bytes) :
    let w := copyHeaders ResponseWriter.fresh headers
    let w := ({ w with header := Header.Set w.header "X-Cache" tag } : ResponseWriter).Write body
    w.finish.body = body ∧ w.finish.status = some 200 ∧
      Header.Values w.finish.sent "X-Cache" = [tag] := by
  obtain ⟨h, hh⟩ := copyHeaders_eq headers ResponseWriter.fresh
  simp only [hh]
  simp [ResponseWriter.Write, ResponseWriter.WriteHeader, ResponseWriter.finish,
    ResponseWriter.fresh, Header.Values_Set_self]

/-! ## Lemmas on serving a backend through the live recorder -/

theorem Keeps.step {k : String} {vs : List String} {w : recordingResponseWriter}
    (hw : Keeps k vs w) (op : Op) (hop : op.leaves k = true) : Keeps k vs (w.step op) := by
  obtain ⟨c, hc, hh, hs⟩ := hw
  cases op with
  | headerSet k' v =>
    have hne : k' ≠ k := by simpa [Op.leaves] using hop
    exact ⟨{ c with header := Header.Set c.header k' v },
      by simp [recordingResponseWriter.step, hc, Sink.modifyHeader],
      by simp [Header.Values_Set_ne _ _ hne, hh], hs⟩
  | headerAdd k' v =>
    have hne : k' ≠ k := by simpa [Op.leaves] using hop
    exact ⟨{ c with header := Header.Add c.header k' v },
      by simp [recordingResponseWriter.step, hc, Sink.modifyHeader],
      by simp [Header.Values_Add_ne _ _ hne, hh], hs⟩
  | headerDel k' =>
    have hne : k' ≠ k := by simpa [Op.leaves] using hop
    exact ⟨{ c with header := Header.Del c.header k' },
      by simp [recordingResponseWriter.step, hc, Sink.modifyHeader],
      by simp [Header.Values_Del_ne _ hne, hh], hs⟩
  | writeHeader code =>
    refine ⟨c.WriteHeader code,
      by simp [recordingResponseWriter.step, recordingResponseWriter.WriteHeader, hc,
        Sink.WriteHeader], ?_, ?_⟩
    · cases hst : c.status <;> simp [ResponseWriter.WriteHeader, hst, hh]
    · cases hst : c.status with
      | none => simp [ResponseWriter.WriteHeader, hst, hh]
      | some s0 =>
        have := hs (by simp [hst])
        simp [ResponseWriter.WriteHeader, hst, this]
  | write b =>
    refine ⟨c.Write b,
      by simp [recordingResponseWriter.step, recordingResponseWriter.Write, hc, Sink.Write],
      ?_, ?_⟩
    · cases hst : c.status <;>
        simp [ResponseWriter.Write, ResponseWriter.WriteHeader, hst, hh]
    · cases hst : c.status with
      | none => simp [ResponseWriter.Write, ResponseWriter.WriteHeader, hst, hh]
      | some s0 =>
        have := hs (by simp [hst])
        simp [ResponseWriter.Write, ResponseWriter.WriteHeader, hst, this]

theorem Keeps.serve {k : String} {vs : List String} (ops : List Op)
    (hops : ∀ op ∈ ops, op.leaves k = true) {w : recordingResponseWriter}
    (hw : Keeps k vs w) : Keeps k vs (w.serve ops) := by
  induction ops generalizing w with
  | nil => exact hw
  | cons op ops ih =>
    simp only [recordingResponseWriter.serve, List.foldl_cons]
    exact ih (fun o ho => hops o (List.mem_cons_of_mem _ ho))
      (hw.step op (hops op (List.mem_cons_self _ _)))

/-- When the server finishes a live recorder that keeps `k`, the client has
received the values `vs` for `k`. -/
theorem Keeps.finish {k : String} {vs : List String} {w : recordingResponseWriter}
    (hw : Keeps k vs w) (w0 : ResponseWriter) :
    Header.Values (w.ResponseWriter.clientOr w0).finish.sent k = vs := by
  obtain ⟨c, hc, hh, hs⟩ := hw
  cases hst : c.status with
  | none => simp [hc, Sink.clientOr, ResponseWriter.finish, ResponseWriter.WriteHeader, hst, hh]
  | some s0 =>
    have := hs (by simp [hst])
    simp [hc, Sink.clientOr, ResponseWriter.finish, ResponseWriter.WriteHeader, hst, this]

/-- The recorder of the miss path keeps `X-Cache: MISS` when it starts. -/
theorem keeps_miss_start (w : ResponseWriter) (hw : w.status = none) :
    Keeps "X-Cache" ["MISS"]
      (liveRecorder { w with header := Header.Set w.header "X-Cache" "MISS" }) :=
  ⟨_, rfl, Header.Values_Set_self _ _ _, fun h => absurd hw h⟩

/-- The miss tail for a backend that leaves `X-Cache` alone: the client receives
`X-Cache: MISS`, the backend was called once, nothing is spawned. -/
theorem withCacheMiss_outcome (next : HandlerFunc) (r : Request) (now : Time)
    (cache : SyncMap) (d : List String)
    (hnext : ∀ op ∈ next r, op.leaves "X-Cache" = true) :
    (withCacheMiss next ResponseWriter.fresh r now cache d).xCache = ["MISS"] ∧
    (withCacheMiss next ResponseWriter.fresh r now cache d).backendCalls = 1 ∧
    (withCacheMiss next ResponseWriter.fresh r now cache d).deleted = d ∧
    (withCacheMiss next ResponseWriter.fresh r now cache d).spawned = [] := by
  have hk := (Keeps.serve (next r) hnext (keeps_miss_start ResponseWriter.fresh rfl)).finish
    { ResponseWriter.fresh with header := Header.Set ResponseWriter.fresh.header "X-Cache" "MISS" }
  unfold withCacheMiss
  simp only [Outcome.xCache, Outcome.response]
  split <;> exact ⟨hk, rfl, rfl, rfl⟩

/-- Header calls that leave `k` alone, served by a live recorder: only the header
map of the client changes, and not at `k`. -/
theorem serve_header_calls (k : String) (ops : List Op)
    (hops : ∀ op ∈ ops, op.onHeader = true ∧ op.leaves k = true)
    (w : recordingResponseWriter) (c : ResponseWriter) (hc : w.ResponseWriter = .client c) :
    ∃ h, Header.Values h k = Header.Values c.header k ∧
      w.serve ops = { w with ResponseWriter := .client { c with header := h } } := by
  induction ops generalizing w c with
  | nil =>
    refine ⟨c.header, rfl, ?_⟩
    cases w
    simp_all [recordingResponseWriter.serve]
  | cons op ops ih =>
    have hop := hops op (List.mem_cons_self _ _)
    have hrest : ∀ o ∈ ops, o.onHeader = true ∧ o.leaves k = true :=
      fun o ho => hops o (List.mem_cons_of_mem _ ho)
    simp only [recordingResponseWriter.serve, List.foldl_cons]
    cases op with
    | headerSet k' v =>
      have hne : k' ≠ k := by simpa [Op.leaves] using hop.2
      obtain ⟨h, hv, hs⟩ := ih hrest (w.step (.headerSet k' v))
        { c with header := Header.Set c.header k' v }
        (by simp [recordingResponseWriter.step, hc, Sink.modifyHeader])
      refine ⟨h, by simpa [Header.Values_Set_ne _ _ hne] using hv, ?_⟩
      simpa [recordingResponseWriter.serve, recordingResponseWriter.step] using hs
    | headerAdd k' v =>
      have hne : k' ≠ k := by simpa [Op.leaves] using hop.2
      obtain ⟨h, hv, hs⟩ := ih hrest (w.step (.headerAdd k' v))
        { c with header := Header.Add c.header k' v }
        (by simp [recordingResponseWriter.step, hc, Sink.modifyHeader])
      refine ⟨h, by simpa [Header.Values_Add_ne _ _ hne] using hv, ?_⟩
      simpa [recordingResponseWriter.serve, recordingResponseWriter.step] using hs
    | headerDel k' =>
      have hne : k' ≠ k := by simpa [Op.leaves] using hop.2
      obtain ⟨h, hv, hs⟩ := ih hrest (w.step (.headerDel k'))
        { c with header := Header.Del c.header k' }
        (by simp [recordingResponseWriter.step, hc, Sink.modifyHeader])
      refine ⟨h, by simpa [Header.Values_Del_ne _ hne] using hv, ?_⟩
      simpa [recordingResponseWriter.serve, recordingResponseWriter.step] using hs
    | writeHeader code => simp [Op.onHeader] at hop
    | write b => simp [Op.onHeader] at hop

/-! ## Claims -/

/-- C1. Fresh path of `withCache`: when the store holds an entry `e` for the request
path with `now < e.RevalidateAt < e.ExpiresAt`, the client receives status 200 with
body `e.Body` and `X-Cache: HIT`, the backend is not called, no revalidation is
started, nothing is deleted and the store is unchanged. -/
theorem withCache_fresh_hit (next : HandlerFunc) (r : Request) (now : Time) (cache : SyncMap)
    (e : CacheEntry) (hload : cache.Load r.Path = some e)
    (hfresh : now < e.RevalidateAt) (hwin : e.RevalidateAt < e.ExpiresAt) :
    (withCache next ResponseWriter.fresh r now cache).response.body = e.Body ∧
    (withCache next ResponseWriter.fresh r now cache).response.status = some 200 ∧
    (withCache next ResponseWriter.fresh r now cache).xCache = ["HIT"] ∧
    (withCache next ResponseWriter.fresh r now cache).backendCalls = 0 ∧
    (withCache next ResponseWriter.fresh r now cache).spawned = [] ∧
    (withCache next ResponseWriter.fresh r now cache).deleted = [] ∧
    (withCache next ResponseWriter.fresh r now cache).cache = cache := by
  have hexp : now < e.ExpiresAt := Nat.lt_trans hfresh hwin
  have hs := served_from_cache e.Headers "HIT" e.Body
  simp only [withCache, hload, hexp, if_true, Outcome.response, Outcome.xCache]
  exact ⟨hs.1, hs.2.1, hs.2.2, trivial, trivial, trivial, trivial⟩

/-- C4. Miss path of `withCache`: when the store holds no entry for the request path
and the backend makes header calls (none on `X-Cache`), then `WriteHeader(s)`, then
one `Write(b)`, the backend is called once, the client receives `X-Cache: MISS` with
status `s` and body `b`, and afterwards the store holds an entry for the path exactly
when `s = 200`; that entry has body `b`, `ExpiresAt = now + cacheTTL` and
`RevalidateAt = now + revalidateTTL`; the entries of all other keys are unchanged. -/
theorem withCache_miss (next : HandlerFunc) (r : Request) (now : Time) (cache : SyncMap)
    (pre : List Op) (s : Int) (b : Bytes)
    (habsent : cache.Load r.Path = none)
    (hnext : next r = pre ++ [Op.writeHeader s, Op.write b])
    (hpre : ∀ op ∈ pre, op.onHeader = true ∧ op.leaves "X-Cache" = true) :
    (withCache next ResponseWriter.fresh r now cache).backendCalls = 1 ∧
    (withCache next ResponseWriter.fresh r now cache).xCache = ["MISS"] ∧
    (withCache next ResponseWriter.fresh r now cache).response.status = some s ∧
    (withCache next ResponseWriter.fresh r now cache).response.body = b ∧
    ((∃ e, (withCache next ResponseWriter.fresh r now cache).cache.Load r.Path = some e)
      ↔ s = 200) ∧
    (s = 200 → ∃ e, (withCache next ResponseWriter.fresh r now cache).cache.Load r.Path = some e ∧
      e.Body = b ∧ e.ExpiresAt = now + cacheTTL ∧ e.RevalidateAt = now + revalidateTTL) ∧
    (∀ k, k ≠ r.Path →
      (withCache next ResponseWriter.fresh r now cache).cache.Load k = cache.Load k) := by
  obtain ⟨h, hv, hs⟩ := serve_header_calls "X-Cache" pre hpre
    (liveRecorder
      { ResponseWriter.fresh with header := Header.Set ResponseWriter.fresh.header "X-Cache" "MISS" })
    _ rfl
  have hv2 : Header.Values h "X-Cache" = ["MISS"] := by
    rw [hv]; exact Header.Values_Set_self _ _ _
  have hserve : recordingResponseWriter.serve (liveRecorder
      { ResponseWriter.fresh with header := Header.Set ResponseWriter.fresh.header "X-Cache" "MISS" })
      (next r) =
      { ResponseWriter := .client { header := h, status := some s, sent := h, body := b }
        Body := b, Headers := .ofClient, Code := s } := by
    rw [hnext]
    unfold recordingResponseWriter.serve at hs ⊢
    rw [List.foldl_append, hs]
    simp [recordingResponseWriter.step, recordingResponseWriter.WriteHeader,
      recordingResponseWriter.Write, Sink.WriteHeader, Sink.Write, Sink.Header,
      ResponseWriter.WriteHeader, ResponseWriter.Write, ResponseWriter.fresh, liveRecorder]
  have habs : cache r.Path = none := habsent
  by_cases h200 : s = 200
  · subst h200
    simp [withCache, SyncMap.Load, habs, withCacheMiss, hserve, Sink.clientOr, Outcome.xCache,
      Outcome.response, ResponseWriter.finish, ResponseWriter.WriteHeader, hv2, SyncMap.Store]
    intro k hk
    simp [hk]
  · simp [withCache, SyncMap.Load, habs, withCacheMiss, hserve, Sink.clientOr, Outcome.xCache,
      Outcome.response, ResponseWriter.finish, ResponseWriter.WriteHeader, hv2, h200]

/-- C5. Revalidation failure: when the status recorded from the backend is not 200,
`revalidate` (a) turns an entry `e` held for the key into the entry with the body,
headers and `ExpiresAt` of `e` and `RevalidateAt = now + 2 * revalidateTTL`,
(b) leaves the store as it is when no entry is held for the key, and leaves the
entries of all other keys unchanged. -/
theorem revalidate_failure_backoff (cacheKey : String) (r : Request) (next : HandlerFunc)
    (now : Time) (cache : SyncMap)
    (hcode : (discardRecorder.serve (next r)).Code ≠ 200) :
    (∀ e, cache.Load cacheKey = some e →
      (revalidate cacheKey r next now cache).1.Load cacheKey =
        some { Body := e.Body, Headers := e.Headers, ExpiresAt := e.ExpiresAt,
               RevalidateAt := now + 2 * revalidateTTL }) ∧
    (cache.Load cacheKey = none → (revalidate cacheKey r next now cache).1 = cache) ∧
    (∀ k, k ≠ cacheKey → (revalidate cacheKey r next now cache).1.Load k = cache.Load k) := by
  refine ⟨?_, ?_, ?_⟩
  · intro e he
    have he' : cache cacheKey = some e := he
    simp [revalidate, hcode, he', SyncMap.Load, SyncMap.Store, Nat.mul_comm]
  · intro hnone
    simp [revalidate, hcode, hnone]
  · intro k hk
    cases hl : cache cacheKey <;>
      simp [revalidate, hcode, hl, SyncMap.Load, SyncMap.Store, hk]

/-- C9. Explicit invalidation: for a request that decodes to the route `k`,
`invalidateHandler` answers with status 200 whether or not `k` was present,
afterwards the store has no entry for `k` and every other key has the entry it had,
and a following `withCache` request for the path `k`, with a backend that leaves
`X-Cache` alone, is a miss: `X-Cache: MISS` and one call of the backend. -/
theorem invalidate_then_miss (cache : SyncMap) (k : String) :
    (invalidateHandler ResponseWriter.fresh (.ok { Route := k }) cache).1.status = some 200 ∧
    (invalidateHandler ResponseWriter.fresh (.ok { Route := k }) cache).2.Load k = none ∧
    (∀ k', k' ≠ k →
      (invalidateHandler ResponseWriter.fresh (.ok { Route := k }) cache).2.Load k'
        = cache.Load k') ∧
    (∀ (next : HandlerFunc) (r : Request) (now : Time), r.Path = k →
      (∀ op ∈ next r, op.leaves "X-Cache" = true) →
      (withCache next ResponseWriter.fresh r now
        (invalidateHandler ResponseWriter.fresh (.ok { Route := k }) cache).2).xCache = ["MISS"] ∧
      (withCache next ResponseWriter.fresh r now
        (invalidateHandler ResponseWriter.fresh (.ok { Route := k }) cache).2).backendCalls
          = 1) := by
  refine ⟨?_, ?_, ?_, ?_⟩
  · simp [invalidateHandler, ResponseWriter.Write, ResponseWriter.WriteHeader,
      ResponseWriter.fresh]
  · simp [invalidateHandler, SyncMap.Load, SyncMap.Delete]
  · intro k' hk
    simp [invalidateHandler, SyncMap.Load, SyncMap.Delete, hk]
  · intro next r now hr hnext
    have hload : (invalidateHandler ResponseWriter.fresh (.ok { Route := k }) cache).2.Load r.Path
        = none := by
      simp [invalidateHandler, SyncMap.Load, SyncMap.Delete, hr]
    have hm := withCacheMiss_outcome next r now
      (invalidateHandler ResponseWriter.fresh (.ok { Route := k }) cache).2 [] hnext
    simp only [withCache, hload]
    exact ⟨hm.1, hm.2.1⟩

/-- The status that a recorder holds after the calls of a backend depends on the
calls only, not on the writer behind the recorder. -/
theorem serve_Code_eq (ops : List Op) (w w' : recordingResponseWriter)
    (h : w.Code = w'.Code) : (w.serve ops).Code = (w'.serve ops).Code := by
  induction ops generalizing w w' with
  | nil => exact h
  | cons op ops ih =>
    simp only [recordingResponseWriter.serve, List.foldl_cons]
    apply ih
    cases op <;>
      simp [recordingResponseWriter.step, recordingResponseWriter.WriteHeader,
        recordingResponseWriter.Write, h]

/-- The store that the miss tail leaves: the store it was given when the status
recorded from the backend is not 200, and otherwise that store with a new entry for
the path, due at `now + cacheTTL` and `now + revalidateTTL`. -/
theorem withCacheMiss_store (next : HandlerFunc) (w : ResponseWriter) (r : Request)
    (now : Time) (cache : SyncMap) (d : List String) :
    ((discardRecorder.serve (next r)).Code ≠ 200 →
      (withCacheMiss next w r now cache d).cache = cache) ∧
    ((discardRecorder.serve (next r)).Code = 200 →
      ∃ e', (withCacheMiss next w r now cache d).cache = cache.Store r.Path e' ∧
        e'.ExpiresAt = now + cacheTTL ∧ e'.RevalidateAt = now + revalidateTTL) := by
  have hc := serve_Code_eq (next r)
    (liveRecorder { w with header := Header.Set w.header "X-Cache" "MISS" }) discardRecorder rfl
  constructor
  · intro hne
    have hne' := hc ▸ hne
    simp [withCacheMiss, hne']
  · intro heq
    have heq' := hc ▸ heq
    simp only [withCacheMiss, heq', if_true]
    exact ⟨_, rfl, rfl, rfl⟩

/-- The classification that `withCache` implements, read off the response and the
calls of `cache.Delete` and `go revalidate`. -/
theorem withCache_labels (next : HandlerFunc) (r : Request) (now : Time)
    (cache : SyncMap) (hnext : ∀ op ∈ next r, op.leaves "X-Cache" = true) :
    ((withCache next ResponseWriter.fresh r now cache).xCache = ["HIT"] ↔
      ∃ e, cache.Load r.Path = some e ∧ now < e.ExpiresAt) ∧
    ((withCache next ResponseWriter.fresh r now cache).xCache = ["STALE"] ↔
      ∃ e, cache.Load r.Path = some e ∧ e.ExpiresAt ≤ now ∧ e.RevalidateAt < now) ∧
    ((withCache next ResponseWriter.fresh r now cache).xCache = ["MISS"] ↔
      ¬ (∃ e, cache.Load r.Path = some e ∧ now < e.ExpiresAt) ∧
      ¬ (∃ e, cache.Load r.Path = some e ∧ e.ExpiresAt ≤ now ∧ e.RevalidateAt < now)) ∧
    (r.Path ∈ (withCache next ResponseWriter.fresh r now cache).deleted ↔
      ∃ e, cache.Load r.Path = some e ∧ e.ExpiresAt ≤ now ∧ now ≤ e.RevalidateAt) ∧
    ((withCache next ResponseWriter.fresh r now cache).spawned ≠ [] ↔
      (withCache next ResponseWriter.fresh r now cache).xCache = ["STALE"]) := by
  cases hload : cache.Load r.Path with
  | none =>
    have hm := withCacheMiss_outcome next r now cache [] hnext
    simp only [withCache, hload]
    simp [hm.1, hm.2.2.1, hm.2.2.2]
  | some e =>
    by_cases hexp : now < e.ExpiresAt
    · have hs := served_from_cache e.Headers "HIT" e.Body
      have hx : (withCache next ResponseWriter.fresh r now cache).xCache = ["HIT"] := by
        simp only [withCache, hload, hexp, if_true, Outcome.xCache, Outcome.response]
        exact hs.2.2
      have hd : (withCache next ResponseWriter.fresh r now cache).deleted = [] := by
        simp [withCache, hload, hexp]
      have hsp : (withCache next ResponseWriter.fresh r now cache).spawned = [] := by
        simp [withCache, hload, hexp]
      rw [hx, hd, hsp]
      have hle : ¬ e.ExpiresAt ≤ now := Nat.not_le.mpr hexp
      simp [hexp, hle]
    · have hle : e.ExpiresAt ≤ now := Nat.not_lt.mp hexp
      by_cases hrev : e.RevalidateAt < now
      · have hs := served_from_cache e.Headers "STALE" e.Body
        have hx : (withCache next ResponseWriter.fresh r now cache).xCache = ["STALE"] := by
          simp only [withCache, hload, hexp, hrev, if_true, if_false, Outcome.xCache,
            Outcome.response]
          exact hs.2.2
        have hd : (withCache next ResponseWriter.fresh r now cache).deleted = [] := by
          simp [withCache, hload, hexp, hrev]
        have hsp : (withCache next ResponseWriter.fresh r now cache).spawned = [(r.Path, r)] := by
          simp [withCache, hload, hexp, hrev]
        rw [hx, hd, hsp]
        have hnle : ¬ now ≤ e.RevalidateAt := Nat.not_le.mpr hrev
        simp [hexp, hle, hrev, hnle]
      · have hm := withCacheMiss_outcome next r now (cache.Delete r.Path) [r.Path] hnext
        have hw : withCache next ResponseWriter.fresh r now cache
            = withCacheMiss next ResponseWriter.fresh r now (cache.Delete r.Path) [r.Path] := by
          simp [withCache, hload, hexp, hrev]
        rw [hw, hm.1, hm.2.2.1, hm.2.2.2]
        have hge : now ≤ e.RevalidateAt := Nat.not_lt.mp hrev
        simp [hexp, hle, hrev, hge]

/-- What a request through `withCache` does to the store, for any backend: an entry
`e` held for the path is no longer held afterwards exactly when
`e.ExpiresAt ≤ now ≤ e.RevalidateAt`; in that case no entry at all is held when the
status recorded from the backend is not 200; every other key keeps its entry. -/
theorem withCache_store_effect (next : HandlerFunc) (r : Request) (now : Time)
    (cache : SyncMap) :
    (∀ e, cache.Load r.Path = some e →
      ((withCache next ResponseWriter.fresh r now cache).cache.Load r.Path ≠ some e ↔
        e.ExpiresAt ≤ now ∧ now ≤ e.RevalidateAt)) ∧
    (∀ e, cache.Load r.Path = some e → e.ExpiresAt ≤ now → now ≤ e.RevalidateAt →
      (discardRecorder.serve (next r)).Code ≠ 200 →
      (withCache next ResponseWriter.fresh r now cache).cache.Load r.Path = none) ∧
    (∀ k, k ≠ r.Path →
      (withCache next ResponseWriter.fresh r now cache).cache.Load k = cache.Load k) := by
  have httl : 0 < cacheTTL := by decide
  cases hload : cache.Load r.Path with
  | none =>
    have hm := withCacheMiss_store next ResponseWriter.fresh r now cache []
    refine ⟨fun e he => by simp at he, fun e he => by simp at he, ?_⟩
    intro k hk
    simp only [withCache, hload]
    by_cases hcode : (discardRecorder.serve (next r)).Code = 200
    · obtain ⟨e', he', -, -⟩ := hm.2 hcode
      simp [he', SyncMap.Load, SyncMap.Store, hk]
    · rw [hm.1 hcode]
  | some e0 =>
    have hload' : cache r.Path = some e0 := hload
    by_cases hexp : now < e0.ExpiresAt
    · have hw : (withCache next ResponseWriter.fresh r now cache).cache = cache := by
        simp [withCache, hload, hexp]
      have hle : ¬ e0.ExpiresAt ≤ now := Nat.not_le.mpr hexp
      rw [hw]
      refine ⟨?_, ?_, fun k _ => rfl⟩
      · intro e he
        have he0 : e0 = e := by simpa [SyncMap.Load, hload'] using he
        subst he0
        simp [SyncMap.Load, hload', hle]
      · intro e he h1
        have he0 : e0 = e := by simpa [SyncMap.Load, hload'] using he
        subst he0
        exact absurd h1 hle
    · have hle : e0.ExpiresAt ≤ now := Nat.not_lt.mp hexp
      by_cases hrev : e0.RevalidateAt < now
      · have hw : (withCache next ResponseWriter.fresh r now cache).cache = cache := by
          simp [withCache, hload, hexp, hrev]
        have hnle : ¬ now ≤ e0.RevalidateAt := Nat.not_le.mpr hrev
        rw [hw]
        refine ⟨?_, ?_, fun k _ => rfl⟩
        · intro e he
          have he0 : e0 = e := by simpa [SyncMap.Load, hload'] using he
          subst he0
          simp [SyncMap.Load, hload', hnle]
        · intro e he _ h2
          have he0 : e0 = e := by simpa [SyncMap.Load, hload'] using he
          subst he0
          exact absurd h2 hnle
      · have hge : now ≤ e0.RevalidateAt := Nat.not_lt.mp hrev
        have hw : withCache next ResponseWriter.fresh r now cache
            = withCacheMiss next ResponseWriter.fresh r now (cache.Delete r.Path) [r.Path] := by
          simp [withCache, hload, hexp, hrev]
        have hm := withCacheMiss_store next ResponseWriter.fresh r now (cache.Delete r.Path)
          [r.Path]
        rw [hw]
        by_cases hcode : (discardRecorder.serve (next r)).Code = 200
        · obtain ⟨e', he', hexp', -⟩ := hm.2 hcode
          rw [he']
          refine ⟨?_, ?_, ?_⟩
          · intro e he
            have he0 : e0 = e := by simpa [SyncMap.Load, hload'] using he
            subst he0
            have hne : e' ≠ e0 := by
              intro h
              rw [h] at hexp'
              have h1 : now + cacheTTL ≤ now := hexp' ▸ hle
              exact absurd h1 (Nat.not_le.mpr (Nat.lt_add_of_pos_right httl))
            simp [SyncMap.Load, SyncMap.Store, hne, hle, hge]
          · intro e _ _ _ hc
            exact absurd hcode hc
          · intro k hk
            simp [SyncMap.Load, SyncMap.Store, SyncMap.Delete, hk]
        · rw [hm.1 hcode]
          refine ⟨?_, ?_, ?_⟩
          · intro e he
            have he0 : e0 = e := by simpa [SyncMap.Load, hload'] using he
            subst he0
            simp [SyncMap.Load, SyncMap.Delete, hle, hge]
          · intro e _ _ _ _
            simp [SyncMap.Load, SyncMap.Delete]
          · intro k hk
            simp [SyncMap.Load, SyncMap.Delete, hk]

/-- C10. The classification that `withCache` implements, for a backend that leaves
`X-Cache` alone: the response has `X-Cache: HIT` exactly when an entry `e` is held
with `now < e.ExpiresAt`, `X-Cache: STALE` exactly when an entry `e` is held with
`e.ExpiresAt ≤ now` and `e.RevalidateAt < now`, and `X-Cache: MISS` in every other
case.  The request deletes the stored entry exactly when an entry `e` is held with
`e.ExpiresAt ≤ now ≤ e.RevalidateAt`: `cache.Delete` is called for the path exactly
then, the entry `e` that was held is no longer in the store afterwards exactly then,
the store then holds no entry at all for the path when the backend's recorded status
is not 200, and every other key keeps its entry.  The request starts a revalidation
exactly when the response is `STALE`. -/
theorem withCache_classification (next : HandlerFunc) (r : Request) (now : Time)
    (cache : SyncMap) (hnext : ∀ op ∈ next r, op.leaves "X-Cache" = true) :
    ((withCache next ResponseWriter.fresh r now cache).xCache = ["HIT"] ↔
      ∃ e, cache.Load r.Path = some e ∧ now < e.ExpiresAt) ∧
    ((withCache next ResponseWriter.fresh r now cache).xCache = ["STALE"] ↔
      ∃ e, cache.Load r.Path = some e ∧ e.ExpiresAt ≤ now ∧ e.RevalidateAt < now) ∧
    ((withCache next ResponseWriter.fresh r now cache).xCache = ["MISS"] ↔
      ¬ (∃ e, cache.Load r.Path = some e ∧ now < e.ExpiresAt) ∧
      ¬ (∃ e, cache.Load r.Path = some e ∧ e.ExpiresAt ≤ now ∧ e.RevalidateAt < now)) ∧
    (r.Path ∈ (withCache next ResponseWriter.fresh r now cache).deleted ↔
      ∃ e, cache.Load r.Path = some e ∧ e.ExpiresAt ≤ now ∧ now ≤ e.RevalidateAt) ∧
    (∀ e, cache.Load r.Path = some e →
      ((withCache next ResponseWriter.fresh r now cache).cache.Load r.Path ≠ some e ↔
        e.ExpiresAt ≤ now ∧ now ≤ e.RevalidateAt)) ∧
    (∀ e, cache.Load r.Path = some e → e.ExpiresAt ≤ now → now ≤ e.RevalidateAt →
      (discardRecorder.serve (next r)).Code ≠ 200 →
      (withCache next ResponseWriter.fresh r now cache).cache.Load r.Path = none) ∧
    (∀ k, k ≠ r.Path →
      (withCache next ResponseWriter.fresh r now cache).cache.Load k = cache.Load k) ∧
    ((withCache next ResponseWriter.fresh r now cache).spawned ≠ [] ↔
      (withCache next ResponseWriter.fresh r now cache).xCache = ["STALE"]) := by
  have hl := withCache_labels next r now cache hnext
  have hs := withCache_store_effect next r now cache
  exact ⟨hl.1, hl.2.1, hl.2.2.1, hl.2.2.2.1, hs.1, hs.2.1, hs.2.2, hl.2.2.2.2⟩

/-! ## Evaluations -/

/-- C1, at an input: two minutes after the settings were cached the request is a hit
served without the backend. -/
theorem withCache_fresh_hit_witness :
    (warmStore.Load settingsRequest.Path = some warmEntry ∧
      2 * minute < warmEntry.RevalidateAt ∧ warmEntry.RevalidateAt < warmEntry.ExpiresAt) ∧
    (withCache settingsHandler ResponseWriter.fresh settingsRequest (2 * minute)
      warmStore).response.body = settingsJSON ∧
    (withCache settingsHandler ResponseWriter.fresh settingsRequest (2 * minute)
      warmStore).xCache = ["HIT"] ∧
    (withCache settingsHandler ResponseWriter.fresh settingsRequest (2 * minute)
      warmStore).backendCalls = 0 :=
  have h := withCache_fresh_hit settingsHandler settingsRequest (2 * minute) warmStore warmEntry
    (by decide) (by decide) (by decide)
  ⟨⟨by decide, by decide, by decide⟩, h.1, h.2.2.1, h.2.2.2.1⟩

/-- C2, at an input: seven minutes after the settings were cached, past `RevalidateAt`
and before `ExpiresAt`, the request is answered `X-Cache: HIT` and starts no
revalidation. -/
theorem stale_window_served_as_hit :
    (warmStore.Load settingsRequest.Path = some warmEntry ∧
      warmEntry.RevalidateAt ≤ 7 * minute ∧ 7 * minute < warmEntry.ExpiresAt) ∧
    (withCache settingsHandler ResponseWriter.fresh settingsRequest (7 * minute)
      warmStore).xCache = ["HIT"] ∧
    (withCache settingsHandler ResponseWriter.fresh settingsRequest (7 * minute)
      warmStore).spawned = [] ∧
    (withCache settingsHandler ResponseWriter.fresh settingsRequest (7 * minute)
      warmStore).backendCalls = 0 := by
  decide

/-- C3, at an input: eleven minutes after the settings were cached, past `ExpiresAt`,
the entry is served with `X-Cache: STALE`, the backend is not called by the request,
and the entry stays in the store. -/
theorem expired_entry_served_stale :
    (warmStore.Load settingsRequest.Path = some warmEntry ∧
      warmEntry.ExpiresAt ≤ 11 * minute) ∧
    (withCache settingsHandler ResponseWriter.fresh settingsRequest (11 * minute)
      warmStore).xCache = ["STALE"] ∧
    (withCache settingsHandler ResponseWriter.fresh settingsRequest (11 * minute)
      warmStore).response.body = warmEntry.Body ∧
    (withCache settingsHandler ResponseWriter.fresh settingsRequest (11 * minute)
      warmStore).backendCalls = 0 ∧
    (withCache settingsHandler ResponseWriter.fresh settingsRequest (11 * minute)
      warmStore).deleted = [] ∧
    (withCache settingsHandler ResponseWriter.fresh settingsRequest (11 * minute)
      warmStore).cache.Load settingsRequest.Path = some warmEntry ∧
    (withCache settingsHandler ResponseWriter.fresh settingsRequest (11 * minute)
      SyncMap.empty).xCache = ["MISS"] := by
  decide

/-- C4, at an input: the first request for the settings on the empty store. -/
theorem withCache_miss_witness :
    (SyncMap.empty.Load settingsRequest.Path = none ∧
      settingsHandler settingsRequest
        = [Op.headerSet "Content-Type" "application/json"]
          ++ [Op.writeHeader 200, Op.write settingsJSON]) ∧
    (withCache settingsHandler ResponseWriter.fresh settingsRequest 0 SyncMap.empty).xCache
      = ["MISS"] ∧
    (withCache settingsHandler ResponseWriter.fresh settingsRequest 0
      SyncMap.empty).response.body = settingsJSON ∧
    ((∃ e, (withCache settingsHandler ResponseWriter.fresh settingsRequest 0
      SyncMap.empty).cache.Load settingsRequest.Path = some e) ↔ (200 : Int) = 200) :=
  have h := withCache_miss settingsHandler settingsRequest 0 SyncMap.empty
    [Op.headerSet "Content-Type" "application/json"] 200 settingsJSON rfl rfl (by decide)
  ⟨⟨rfl, rfl⟩, h.2.1, h.2.2.2.1, h.2.2.2.2.1⟩

/-- C5, at an input: a revalidation that gets a 500, twelve minutes in, moves only
`RevalidateAt` of the cached settings. -/
theorem revalidate_failure_backoff_witness :
    (discardRecorder.serve (failingBackend settingsRequest)).Code ≠ 200 ∧
    (revalidate settingsRequest.Path settingsRequest failingBackend (12 * minute)
      warmStore).1.Load settingsRequest.Path =
        some { Body := warmEntry.Body, Headers := warmEntry.Headers,
               ExpiresAt := warmEntry.ExpiresAt,
               RevalidateAt := 12 * minute + 2 * revalidateTTL } :=
  have h := revalidate_failure_backoff settingsRequest.Path settingsRequest failingBackend
    (12 * minute) warmStore (by decide)
  ⟨by decide, h.1 warmEntry (by decide)⟩

/-- C6, at an input: a revalidation with `settingsHandler`, which sets `Content-Type`
before `WriteHeader(200)`, stores an entry without any header. -/
theorem revalidate_stores_no_headers :
    settingsHandler settingsRequest
      = [Op.headerSet "Content-Type" "application/json", Op.writeHeader 200,
         Op.write settingsJSON] ∧
    (revalidate settingsRequest.Path settingsRequest settingsHandler (11 * minute)
      warmStore).1.Load settingsRequest.Path =
        some { Body := settingsJSON, Headers := [],
               ExpiresAt := 11 * minute + cacheTTL,
               RevalidateAt := 11 * minute + revalidateTTL } ∧
    (revalidate settingsRequest.Path settingsRequest settingsHandler (11 * minute)
      SyncMap.empty).1.Load settingsRequest.Path =
        some { Body := settingsJSON, Headers := [],
               ExpiresAt := 11 * minute + cacheTTL,
               RevalidateAt := 11 * minute + revalidateTTL } := by
  decide

/-- C7, at an input: the miss response of `cookieBackend` carries both values of
`Set-Cookie` and both are stored; the hit served from that entry one minute later
carries the last value only. -/
theorem hit_keeps_last_header_value :
    Header.Values (withCache cookieBackend ResponseWriter.fresh settingsRequest 0
      SyncMap.empty).response.sent "Set-Cookie" = ["a=1", "b=2"] ∧
    ((withCache cookieBackend ResponseWriter.fresh settingsRequest 0
      SyncMap.empty).cache.Load settingsRequest.Path).map
        (fun e => Header.Values e.Headers "Set-Cookie") = some ["a=1", "b=2"] ∧
    (withCache cookieBackend ResponseWriter.fresh settingsRequest minute
      (withCache cookieBackend ResponseWriter.fresh settingsRequest 0
        SyncMap.empty).cache).xCache = ["HIT"] ∧
    Header.Values (withCache cookieBackend ResponseWriter.fresh settingsRequest minute
      (withCache cookieBackend ResponseWriter.fresh settingsRequest 0
        SyncMap.empty).cache).response.sent "Set-Cookie" = ["b=2"] := by
  decide

/-- C8, at an input: `chunkedBackend` writes `[97, 98]` and then `[99, 100]`; the
client receives all four bytes, the recorder holds the last write only, and so does
the entry cached on the miss path. -/
theorem recorder_keeps_last_write :
    ((liveRecorder ResponseWriter.fresh).serve (chunkedBackend settingsRequest)).Body
      = [99, 100] ∧
    (((liveRecorder ResponseWriter.fresh).serve
      (chunkedBackend settingsRequest)).ResponseWriter.clientOr ResponseWriter.fresh).body
      = [97, 98, 99, 100] ∧
    (withCache chunkedBackend ResponseWriter.fresh settingsRequest 0
      SyncMap.empty).response.body = [97, 98, 99, 100] ∧
    ((withCache chunkedBackend ResponseWriter.fresh settingsRequest 0
      SyncMap.empty).cache.Load settingsRequest.Path).map (fun e => e.Body)
      = some [99, 100] := by
  decide

/-- C9, at an input: invalidating the cached settings, then requesting them. -/
theorem invalidate_then_miss_witness :
    (settingsRequest.Path = "/blackjack/settings" ∧
      ∀ op ∈ settingsHandler settingsRequest, op.leaves "X-Cache" = true) ∧
    warmStore.Load "/blackjack/settings" = some warmEntry ∧
    (withCache settingsHandler ResponseWriter.fresh settingsRequest minute
      (invalidateHandler ResponseWriter.fresh (.ok { Route := "/blackjack/settings" })
        warmStore).2).xCache = ["MISS"] ∧
    (withCache settingsHandler ResponseWriter.fresh settingsRequest minute
      (invalidateHandler ResponseWriter.fresh (.ok { Route := "/blackjack/settings" })
        warmStore).2).backendCalls = 1 :=
  have h := (invalidate_then_miss warmStore "/blackjack/settings").2.2.2
    settingsHandler settingsRequest minute rfl (by decide)
  ⟨⟨rfl, by decide⟩, by decide, h.1, h.2⟩

/-- C10, at an input: seven minutes in, the cached settings are a hit and stay in the
store; twelve minutes in, after a failed revalidation has moved `RevalidateAt` to
twenty-one minutes, the entry is expired and not yet due, so a request with a backend
that answers 500 is a miss that calls `cache.Delete` and leaves no entry for the
path. -/
theorem withCache_classification_witness :
    ((∀ op ∈ settingsHandler settingsRequest, op.leaves "X-Cache" = true) ∧
      (∀ op ∈ failingBackend settingsRequest, op.leaves "X-Cache" = true) ∧
      backedOffStore.Load settingsRequest.Path = some backedOffEntry ∧
      backedOffEntry.ExpiresAt ≤ 12 * minute ∧ 12 * minute ≤ backedOffEntry.RevalidateAt ∧
      (discardRecorder.serve (failingBackend settingsRequest)).Code ≠ 200) ∧
    (withCache settingsHandler ResponseWriter.fresh settingsRequest (7 * minute)
      warmStore).xCache = ["HIT"] ∧
    ¬ ((withCache settingsHandler ResponseWriter.fresh settingsRequest (7 * minute)
      warmStore).cache.Load settingsRequest.Path ≠ some warmEntry) ∧
    (withCache failingBackend ResponseWriter.fresh settingsRequest (12 * minute)
      backedOffStore).xCache = ["MISS"] ∧
    settingsRequest.Path ∈ (withCache failingBackend ResponseWriter.fresh settingsRequest
      (12 * minute) backedOffStore).deleted ∧
    (withCache failingBackend ResponseWriter.fresh settingsRequest (12 * minute)
      backedOffStore).cache.Load settingsRequest.Path ≠ some backedOffEntry ∧
    (withCache failingBackend ResponseWriter.fresh settingsRequest (12 * minute)
      backedOffStore).cache.Load settingsRequest.Path = none :=
  have hit := withCache_classification settingsHandler settingsRequest (7 * minute) warmStore
    (by decide)
  have del := withCache_classification failingBackend settingsRequest (12 * minute)
    backedOffStore (by decide)
  ⟨⟨by decide, by decide, by decide, by decide, by decide, by decide⟩,
    hit.1.mpr ⟨warmEntry, by decide, by decide⟩,
    fun h => absurd ((hit.2.2.2.2.1 warmEntry (by decide)).mp h).1 (by decide),
    del.2.2.1.mpr ⟨fun ⟨e, he, hlt⟩ => by
        have h0 : backedOffEntry = e := Option.some.inj ((by decide :
          backedOffStore.Load settingsRequest.Path = some backedOffEntry).symm.trans he)
        subst h0
        exact absurd hlt (by decide),
      fun ⟨e, he, _, hlt⟩ => by
        have h0 : backedOffEntry = e := Option.some.inj ((by decide :
          backedOffStore.Load settingsRequest.Path = some backedOffEntry).symm.trans he)
        subst h0
        exact absurd hlt (by decide)⟩,
    del.2.2.2.1.mpr ⟨backedOffEntry, by decide, by decide, by decide⟩,
    (del.2.2.2.2.1 backedOffEntry (by decide)).mpr ⟨by decide, by decide⟩,
    del.2.2.2.2.2.1 backedOffEntry (by decide) (by decide) (by decide) (by decide)⟩

end ProxyCache
